import Mathlib

set_option maxHeartbeats 1000000

/-!
Shallow embedding of lib/improver/spotdata/read_input.py and the
verification of its specified behaviour.

The module under study has five pieces: the Load plugin (strategy
dispatch over getattr), get_method_prerequisites, get_additional_diagnostics,
data_from_dictionary and read_config.  External collaborators (the iris
cube loader, the json library, os.walk and os.path.join, the filesystem)
are modelled explicitly: the filesystem as an in-memory directory tree,
the cube loader as a function parameter, and the json library as an
executable serializer/parser pair.
-/

/-! ### Substring containment, modelling the Python expression a in b on strings -/

/-- Boolean test that the first list is a prefix of the second. -/
def charsPrefixOf (p t : List Char) : Bool :=
  match p, t with
  | [], _ => true
  | a :: as, b :: bs => if a = b then charsPrefixOf as bs else false
  | _, [] => false

/-- Boolean test that pat occurs contiguously inside the second list. -/
def charsSubstrOf (pat : List Char) : List Char → Bool
  | [] => charsPrefixOf pat []
  | c :: cs => charsPrefixOf pat (c :: cs) || charsSubstrOf pat cs

/-- Model of the Python membership test pat in text on strings:
case-sensitive contiguous substring containment. -/
def substrOf (pat text : String) : Bool :=
  charsSubstrOf pat.toList text.toList

/-! ### Filesystem model.

A directory is a node holding named subdirectories and a list of
filenames of the regular files directly inside it. -/

/-- In-memory directory tree: named subdirectories plus the filenames of
the regular files in the directory itself. -/
inductive DirTree where
  | node (subdirs : List (String × DirTree)) (files : List String)

/-- Model of os.path.join for the relative names produced by the walk. -/
def pathJoin (a b : String) : String := a ++ "/" ++ b

mutual

/-- Model of os.walk in top-down order: the pairs of directory path and
filename list, current directory first, then each subdirectory in order. -/
def osWalk : String → DirTree → List (String × List String)
  | top, .node subdirs files => (top, files) :: osWalkList top subdirs

/-- Walk of a list of named subdirectories, in order. -/
def osWalkList : String → List (String × DirTree) → List (String × List String)
  | _, [] => []
  | top, (name, t) :: rest => osWalk (pathJoin top name) t ++ osWalkList top rest

end

mutual

/-- Every regular file in the full recursive subtree, as a pair of the
path of its directory and its filename.  Defined by direct structural
recursion on the tree, independently of the walk. -/
def allFiles : String → DirTree → List (String × String)
  | top, .node subdirs files => files.map (fun fn => (top, fn)) ++ allFilesList top subdirs

/-- Files of a list of named subdirectories, in order. -/
def allFilesList : String → List (String × DirTree) → List (String × String)
  | _, [] => []
  | top, (name, t) :: rest => allFiles (pathJoin top name) t ++ allFilesList top rest

end

/-! ### Error model.

Each constructor is one of the Python exception classes raised or
documented by the source, carrying the formatted message. -/

/-- Python exceptions raised by the embedded functions. -/
inductive PyErr where
  | ioError (msg : String)
  | valueError (msg : String)
  | typeError (msg : String)
  | keyError (msg : String)

/-! ### The Load plugin (source lines 43 to 100).

Load stores the strategy tag as the instance attribute method and
dispatches with getattr(self, self.method).  The getattr succeeds for
every attribute name that exists on the instance, not only for the two
strategy methods; only a missing attribute raises the AttributeError
with the message built at lines 87 and 88.  The outcome type records
which delegate the dispatcher selected, with the filepath and
diagnostic arguments it would pass on. -/

/-- Outcome of Load.process: which delegate the getattr dispatch selects,
or the AttributeError raised when the tag names no attribute. -/
inductive ProcessOutcome (α β : Type) where
  | singleFileCall (filepath : α) (diagnostic : β)
  | multiFileCall (filepath : α) (diagnostic : β)
  | otherAttributeCall (attr : String)
  | attributeError (msg : String)

/-- Attribute names available on a Load instance: the instance attribute
set in init, the methods defined in the class body, and the names
inherited from the base object type. -/
def loadInstanceAttrs : List String :=
  ["method", "process", "single_file", "multi_file", "__init__", "__repr__",
   "__class__", "__delattr__", "__dict__", "__doc__", "__format__",
   "__getattribute__", "__hash__", "__module__", "__new__", "__reduce__",
   "__reduce_ex__", "__setattr__", "__sizeof__", "__str__",
   "__subclasshook__", "__weakref__"]

/-- Model of Load(method).process(filepath, diagnostic), source lines 84
to 90: getattr resolves the tag against the attributes of the instance;
a hit on single_file or multi_file delegates to the strategy, a hit on
any other attribute calls that attribute instead, and only a miss raises
the AttributeError naming the tag and the class. -/
def Load.process (α β : Type) (method : String) (filepath : α) (diagnostic : β) :
    ProcessOutcome α β :=
  if method ∈ loadInstanceAttrs then
    if method = "single_file" then .singleFileCall filepath diagnostic
    else if method = "multi_file" then .multiFileCall filepath diagnostic
    else .otherAttributeCall method
  else
    .attributeError ("Unknown method \"" ++ method ++ "\" passed to Load.")

/-- Boolean test that a process outcome is the AttributeError case. -/
def isAttributeError (α β : Type) : ProcessOutcome α β → Bool
  | .attributeError _ => true
  | _ => false

/-- Model of the static method Load.multi_file (source lines 97 to 100):
delegates to the external iris load primitive, supplied as a parameter. -/
def multi_file (κ : Type) (irisLoad : List String → Option String → List κ)
    (filepath : List String) (diagnostic : Option String) : List κ :=
  irisLoad filepath diagnostic

/-! ### get_additional_diagnostics (source lines 136 to 177). -/

/-- Optional constraint narrowing a loaded collection to one time value,
modelled per the interface boundary: an externally-defined filter
predicate on cubes together with the text its formatting produces. -/
structure TimeFilter (κ : Type) where
  pred : κ → Bool
  shown : String

/-- File selection of source lines 162 to 165: the comprehension over
os.walk joining dirpath and filename for every filename that contains
the diagnostic name as a substring. -/
def filesToRead (diagnostic_name diagnostic_data_path : String) (tree : DirTree) :
    List String :=
  ((osWalk diagnostic_data_path tree).map
    (fun pr => (pr.2.filter (fun filename => substrOf diagnostic_name filename)).map
      (fun filename => pathJoin pr.1 filename))).flatten

/-- Model of get_additional_diagnostics: search the tree for files whose
name contains the diagnostic name, raise IOError when none is found,
load them all through Load with the multi_file strategy and no
diagnostic constraint, then optionally extract by the time constraint,
raising ValueError when the extraction is empty.  The external iris
loader is the parameter irisLoad; the extract call on the loaded
collection is the filter by the constraint predicate. -/
def get_additional_diagnostics (κ : Type)
    (irisLoad : List String → Option String → List κ)
    (diagnostic_name diagnostic_data_path : String) (tree : DirTree)
    (time_extract : Option (TimeFilter κ)) : Except PyErr (List κ) :=
  let files_to_read := filesToRead diagnostic_name diagnostic_data_path tree
  if files_to_read.isEmpty then
    .error (.ioError ("No relevant data files found in " ++ diagnostic_data_path ++ "."))
  else
    let cubes := multi_file κ irisLoad files_to_read none
    match time_extract with
    | none => .ok cubes
    | some tf =>
      let extracted := cubes.filter tf.pred
      if extracted.isEmpty then
        .error (.valueError ("No diagnostics match " ++ tf.shown))
      else
        .ok extracted

/-! ### get_method_prerequisites (source lines 103 to 133). -/

/-- Loop body of source lines 128 to 131: fill the dictionary with one
entry per required diagnostic, in order, aborting on the first raised
exception. -/
def collectPrereqs (κ : Type) (irisLoad : List String → Option String → List κ)
    (diagnostic_data_path : String) (tree : DirTree) :
    List String → Except PyErr (List (String × List κ))
  | [] => .ok []
  | item :: rest =>
    match get_additional_diagnostics κ irisLoad item diagnostic_data_path tree none with
    | .error e => .error e
    | .ok c =>
      match collectPrereqs κ irisLoad diagnostic_data_path tree rest with
      | .error e => .error e
      | .ok tail => .ok ((item, c) :: tail)

/-- Model of get_method_prerequisites: the one recognized method maps to
its fixed list of three diagnostics, each retrieved with no time
constraint; every other method returns None. -/
def get_method_prerequisites (κ : Type)
    (irisLoad : List String → Option String → List κ)
    (method diagnostic_data_path : String) (tree : DirTree) :
    Except PyErr (Option (List (String × List κ))) :=
  if method = "model_level_temperature_lapse_rate" then
    match collectPrereqs κ irisLoad diagnostic_data_path tree
        ["temperature_on_height_levels", "pressure_on_height_levels",
         "surface_pressure"] with
    | .error e => .error e
    | .ok m => .ok (some m)
  else
    .ok none

/-! ### data_from_dictionary (source lines 180 to 210). -/

/-- Python values as far as data_from_dictionary observes them: a
dictionary with string keys, or any non-dictionary value. -/
inductive PyVal where
  | dict (entries : List (String × PyVal))
  | strVal (s : String)
  | intVal (n : Int)
  | listVal (xs : List PyVal)
  | boolVal (b : Bool)
  | noneVal

/-- Boolean test for the isinstance(x, dict) check. -/
def PyVal.isDict : PyVal → Bool
  | .dict _ => true
  | _ => false

/-- Model of data_from_dictionary: TypeError on a non-dictionary input,
the stored value when the key is present, KeyError naming the key
otherwise. -/
def data_from_dictionary (dictionary_data : PyVal) (key : String) :
    Except PyErr PyVal :=
  match dictionary_data with
  | .dict entries =>
    match entries.lookup key with
    | some v => .ok v
    | none => .error (.keyError ("Data " ++ key ++ " not found in dictionary."))
  | _ => .error (.typeError "Invalid type sent to data_from_dictionary - Not a dictionary.")

/-! ### The json library and read_config (source lines 213 to 235).

Modelled from the spec: the json module used by read_config is an
external library absent from src, so serialization and parsing are
modelled here as an executable pair over the JSON data model, with
numbers restricted to integers.  The source function read_config opens
the file and returns json.load of its contents unchanged. -/

/-- JSON values: the data model of the configuration files, objects as
ordered association lists with string keys and numbers as integers. -/
inductive Json where
  | null
  | bool (flag : Bool)
  | num (value : Int)
  | str (text : String)
  | arr (items : List Json)
  | obj (pairs : List (String × Json))

/-- Opening brace character, kept out of literal syntax. -/
def lbrace : Char := Char.ofNat 123

/-- Closing brace character, kept out of literal syntax. -/
def rbrace : Char := Char.ofNat 125

/-- Serialization of one string character: the quote, the backslash and
the common control characters are escaped, everything else is emitted
raw. -/
def escChar (c : Char) : List Char :=
  if c = '"' then ['\\', '"']
  else if c = '\\' then ['\\', '\\']
  else if c = Char.ofNat 10 then ['\\', 'n']
  else if c = Char.ofNat 9 then ['\\', 't']
  else if c = Char.ofNat 13 then ['\\', 'r']
  else [c]

/-- Serialization of a string body, without the surrounding quotes. -/
def escString (s : String) : List Char :=
  (s.toList.map escChar).flatten

/-- Decimal digits of a natural number, most significant first. -/
def natChars (n : Nat) : List Char :=
  if _h : n < 10 then [Nat.digitChar n]
  else natChars (n / 10) ++ [Nat.digitChar (n % 10)]
  decreasing_by exact Nat.div_lt_self (by omega) (by omega)

/-- Decimal text of an integer. -/
def intChars : Int → List Char
  | .ofNat n => natChars n
  | .negSucc m => '-' :: natChars (m + 1)

mutual

/-- Serialization of a JSON value to characters, compact form. -/
def dumpChars : Json → List Char
  | .null => ("nu" ++ "ll").toList
  | .bool b => (if b then "tr" ++ "ue" else "fal" ++ "se").toList
  | .num n => intChars n
  | .str s => '"' :: (escString s ++ ['"'])
  | .arr es => '[' :: (dumpElemsChars es ++ [']'])
  | .obj ms => lbrace :: (dumpMembersChars ms ++ [rbrace])

/-- Serialization of array elements, comma separated. -/
def dumpElemsChars : List Json → List Char
  | [] => []
  | [x] => dumpChars x
  | x :: y :: rest => dumpChars x ++ ',' :: dumpElemsChars (y :: rest)

/-- Serialization of object members, comma separated, each a quoted key,
a colon and the value. -/
def dumpMembersChars : List (String × Json) → List Char
  | [] => []
  | [(k, v)] => '"' :: (escString k ++ ('"' :: ':' :: dumpChars v))
  | (k, v) :: m :: rest =>
    ('"' :: (escString k ++ ('"' :: ':' :: dumpChars v))) ++
      ',' :: dumpMembersChars (m :: rest)

end

/-- Inverse of the character escapes accepted inside a string literal. -/
def unescChar (c : Char) : Option Char :=
  if c = '"' then some '"'
  else if c = '\\' then some '\\'
  else if c = '/' then some '/'
  else if c = 'n' then some (Char.ofNat 10)
  else if c = 't' then some (Char.ofNat 9)
  else if c = 'r' then some (Char.ofNat 13)
  else none

/-- Parse a string body up to the closing quote, resolving escapes. -/
def parseStringBody : List Char → Option (List Char × List Char)
  | [] => none
  | c :: rest =>
    if c = '"' then some ([], rest)
    else if c = '\\' then
      match rest with
      | [] => none
      | e :: rest2 =>
        match unescChar e with
        | none => none
        | some u =>
          match parseStringBody rest2 with
          | none => none
          | some (s, r) => some (u :: s, r)
    else
      match parseStringBody rest with
      | none => none
      | some (s, r) => some (c :: s, r)

/-- Consume an expected literal tail, character by character. -/
def afterLit : List Char → List Char → Option (List Char)
  | [], cs => some cs
  | _ :: _, [] => none
  | l :: ls, c :: cs => if c = l then afterLit ls cs else none

/-- Longest leading run of decimal digits, and the remainder. -/
def takeDigits : List Char → List Char × List Char
  | [] => ([], [])
  | c :: cs =>
    if c.isDigit then
      let p := takeDigits cs
      (c :: p.1, p.2)
    else ([], c :: cs)

/-- Numeric value of a digit run, most significant first, onto an
accumulator. -/
def digitsToNat (acc : Nat) : List Char → Nat
  | [] => acc
  | c :: cs => digitsToNat (acc * 10 + (c.toNat - 48)) cs

/-- Parse a nonempty run of digits as a natural number. -/
def parseNat (cs : List Char) : Option (Nat × List Char) :=
  let p := takeDigits cs
  if p.1.isEmpty then none else some (digitsToNat 0 p.1, p.2)

/-- Parse an optionally negated decimal integer. -/
def parseNumberChars : List Char → Option (Int × List Char)
  | [] => none
  | c :: rest =>
    if c = '-' then (parseNat rest).map (fun pr => (-(pr.1 : Int), pr.2))
    else (parseNat (c :: rest)).map (fun pr => ((pr.1 : Int), pr.2))

/-- Boolean test that a character stream does not begin with a digit, so
that a number parsed in front of it cannot absorb its head. -/
def noDigitHead : List Char → Bool
  | [] => true
  | c :: _ => !c.isDigit

mutual

/-- Fueled recursive descent parser for one JSON value. -/
def parseJson : Nat → List Char → Option (Json × List Char)
  | 0, _ => none
  | n + 1, cs =>
    match cs with
    | [] => none
    | c :: rest =>
      if c = 'n' then (afterLit ['u', 'l', 'l'] rest).map (fun r => (.null, r))
      else if c = 't' then (afterLit ['r', 'u', 'e'] rest).map (fun r => (.bool true, r))
      else if c = 'f' then (afterLit ['a', 'l', 's', 'e'] rest).map (fun r => (.bool false, r))
      else if c = '"' then
        (parseStringBody rest).map (fun pr => (.str (String.mk pr.1), pr.2))
      else if c = '[' then
        match rest with
        | [] => none
        | r0 :: r1 =>
          if r0 = ']' then some (.arr [], r1)
          else (parseElems n (r0 :: r1)).map (fun pr => (.arr pr.1, pr.2))
      else if c = lbrace then
        match rest with
        | [] => none
        | r0 :: r1 =>
          if r0 = rbrace then some (.obj [], r1)
          else (parseMembers n (r0 :: r1)).map (fun pr => (.obj pr.1, pr.2))
      else if c = '-' || c.isDigit then
        (parseNumberChars (c :: rest)).map (fun pr => (.num pr.1, pr.2))
      else none

/-- Fueled parser for the elements of a nonempty array, including the
closing bracket. -/
def parseElems : Nat → List Char → Option (List Json × List Char)
  | 0, _ => none
  | n + 1, cs =>
    match parseJson n cs with
    | none => none
    | some (v, r) =>
      match r with
      | [] => none
      | c :: r2 =>
        if c = ',' then
          match parseElems n r2 with
          | none => none
          | some (vs, r3) => some (v :: vs, r3)
        else if c = ']' then some ([v], r2)
        else none

/-- Fueled parser for the members of a nonempty object, including the
closing brace. -/
def parseMembers : Nat → List Char → Option (List (String × Json) × List Char)
  | 0, _ => none
  | n + 1, cs =>
    match cs with
    | [] => none
    | c :: rest =>
      if c = '"' then
        match parseStringBody rest with
        | none => none
        | some (k, r) =>
          match r with
          | [] => none
          | c2 :: r2 =>
            if c2 = ':' then
              match parseJson n r2 with
              | none => none
              | some (v, r3) =>
                match r3 with
                | [] => none
                | c3 :: r4 =>
                  if c3 = ',' then
                    match parseMembers n r4 with
                    | none => none
                    | some (ms, r5) => some ((String.mk k, v) :: ms, r5)
                  else if c3 = rbrace then some ([(String.mk k, v)], r4)
                  else none
            else none
      else none

end

mutual

/-- Fuel needed by the parser on the serialization of a value. -/
def jsonCost : Json → Nat
  | .arr es => 1 + elemsCost es
  | .obj ms => 1 + membersCost ms
  | _ => 1

/-- Fuel needed by the element parser. -/
def elemsCost : List Json → Nat
  | [] => 1
  | x :: rest => 1 + jsonCost x + elemsCost rest

/-- Fuel needed by the member parser. -/
def membersCost : List (String × Json) → Nat
  | [] => 1
  | m :: rest => 1 + jsonCost m.2 + membersCost rest

end

/-- Model of json.dumps on the JSON data model. -/
def json_dumps (v : Json) : String := String.mk (dumpChars v)

/-- Model of json.load on the text of a whole file: parse one value and
require that nothing but the value is present. -/
def json_load (s : String) : Option Json :=
  match parseJson (2 * s.length + 4) s.toList with
  | some (v, []) => some v
  | _ => none

/-- Model of read_config, source lines 233 to 235, with the filesystem
read modelled as the optional file contents: IOError when the file is
missing, ValueError when the contents are not valid JSON, and otherwise
exactly the parsed value, returned unchanged with no check on its shape. -/
def read_config (file_contents : Option String) : Except PyErr Json :=
  match file_contents with
  | none => .error (.ioError "No such file or directory")
  | some s =>
    match json_load s with
    | some v => .ok v
    | none => .error (.valueError "No JSON object could be decoded")

/-! ## Lemmas on decimal digits and the number round trip -/

theorem digitChar_isDigit (d : Nat) (h : d < 10) : (Nat.digitChar d).isDigit = true := by
  interval_cases d <;> decide

theorem digitChar_toNat (d : Nat) (h : d < 10) : (Nat.digitChar d).toNat = 48 + d := by
  interval_cases d <;> decide

theorem natChars_ne_nil (n : Nat) : natChars n ≠ [] := by
  rw [natChars]
  split <;> simp

theorem natChars_digits (n : Nat) : ∀ c ∈ natChars n, c.isDigit = true := by
  induction n using Nat.strong_induction_on with
  | _ n ih =>
    rw [natChars]
    split
    · rename_i h
      intro c hc
      simp only [List.mem_singleton] at hc
      subst hc
      exact digitChar_isDigit n h
    · rename_i h
      intro c hc
      rw [List.mem_append] at hc
      rcases hc with hc | hc
      · exact ih (n / 10) (Nat.div_lt_self (by omega) (by omega)) c hc
      · simp only [List.mem_singleton] at hc
        subst hc
        exact digitChar_isDigit _ (Nat.mod_lt _ (by omega))

theorem digitsToNat_append (l1 l2 : List Char) :
    ∀ a, digitsToNat a (l1 ++ l2) = digitsToNat (digitsToNat a l1) l2 := by
  induction l1 with
  | nil => intro a; rfl
  | cons c cs ih =>
    intro a
    rw [List.cons_append]
    rw [show ∀ x, digitsToNat x (c :: (cs ++ l2))
      = digitsToNat (x * 10 + (c.toNat - 48)) (cs ++ l2) from fun x => rfl]
    rw [show ∀ x, digitsToNat x (c :: cs)
      = digitsToNat (x * 10 + (c.toNat - 48)) cs from fun x => rfl]
    exact ih (a * 10 + (c.toNat - 48))

theorem digitsToNat_natChars (n : Nat) :
    ∀ a, digitsToNat a (natChars n) = a * 10 ^ (natChars n).length + n := by
  induction n using Nat.strong_induction_on with
  | _ n ih =>
    intro a
    rw [natChars]
    split
    · rename_i h
      rw [show digitsToNat a [Nat.digitChar n]
        = a * 10 + ((Nat.digitChar n).toNat - 48) from rfl]
      rw [digitChar_toNat n h]
      simp only [List.length_cons, List.length_nil, zero_add, pow_one]
      omega
    · rename_i h
      rw [digitsToNat_append, ih (n / 10) (Nat.div_lt_self (by omega) (by omega)) a]
      have hm : n % 10 < 10 := Nat.mod_lt _ (by omega)
      rw [show ∀ x, digitsToNat x [Nat.digitChar (n % 10)]
        = x * 10 + ((Nat.digitChar (n % 10)).toNat - 48) from fun x => rfl]
      rw [digitChar_toNat _ hm]
      simp only [List.length_append, List.length_cons, List.length_nil, zero_add]
      rw [pow_succ, ← mul_assoc]
      have hdm := Nat.div_add_mod n 10
      generalize a * (10 : Nat) ^ (natChars (n / 10)).length = Y
      omega

theorem takeDigits_append (ds rest : List Char) (hds : ∀ c ∈ ds, c.isDigit = true)
    (hrest : noDigitHead rest = true) : takeDigits (ds ++ rest) = (ds, rest) := by
  induction ds with
  | nil =>
    simp only [List.nil_append]
    cases rest with
    | nil => rfl
    | cons c cs =>
      simp only [noDigitHead, Bool.not_eq_true'] at hrest
      simp [takeDigits, hrest]
  | cons c cs ih =>
    have hc : c.isDigit = true := hds c (by simp)
    simp [takeDigits, hc, ih (fun x hx => hds x (by simp [hx]))]

theorem parseNat_natChars (n : Nat) (rest : List Char) (hrest : noDigitHead rest = true) :
    parseNat (natChars n ++ rest) = some (n, rest) := by
  unfold parseNat
  rw [takeDigits_append _ _ (natChars_digits n) hrest]
  have hne : (natChars n).isEmpty = false := by
    simp [List.isEmpty_eq_false, natChars_ne_nil n]
  simp [hne, digitsToNat_natChars]

theorem isDigit_ne_special (c : Char) (h : c.isDigit = true) :
    c ≠ '-' ∧ c ≠ '[' ∧ c ≠ ']' ∧ c ≠ lbrace ∧ c ≠ rbrace ∧
    c ≠ 'n' ∧ c ≠ 't' ∧ c ≠ 'f' ∧ c ≠ '"' := by
  have hne : ∀ x : Char, x.isDigit = false → c ≠ x := by
    intro x hx he
    rw [he, hx] at h
    exact absurd h (by decide)
  exact ⟨hne '-' rfl, hne '[' rfl, hne ']' rfl, hne lbrace rfl, hne rbrace rfl,
    hne 'n' rfl, hne 't' rfl, hne 'f' rfl, hne '"' rfl⟩

theorem parseNumberChars_intChars (k : Int) (rest : List Char)
    (hrest : noDigitHead rest = true) :
    parseNumberChars (intChars k ++ rest) = some (k, rest) := by
  cases k with
  | ofNat m =>
    obtain ⟨c, cs, hc⟩ : ∃ c cs, natChars m = c :: cs := by
      cases hnc : natChars m with
      | nil => exact absurd hnc (natChars_ne_nil m)
      | cons c cs => exact ⟨c, cs, rfl⟩
    have hd : c.isDigit = true := natChars_digits m c (by rw [hc]; simp)
    have hmi : c ≠ '-' := (isDigit_ne_special c hd).1
    have hstream : intChars (Int.ofNat m) ++ rest = c :: (cs ++ rest) := by
      rw [intChars, hc, List.cons_append]
    rw [hstream]
    simp only [parseNumberChars, if_neg hmi]
    have harg : (c :: (cs ++ rest)) = natChars m ++ rest := by
      rw [hc, List.cons_append]
    rw [harg, parseNat_natChars m rest hrest]
    rfl
  | negSucc m =>
    have hstream : intChars (Int.negSucc m) ++ rest = '-' :: (natChars (m + 1) ++ rest) := by
      rw [intChars, List.cons_append]
    rw [hstream]
    simp only [parseNumberChars, if_pos rfl]
    rw [parseNat_natChars (m + 1) rest hrest]
    simp [Int.negSucc_eq]

/-! ## Lemmas on the string body round trip -/

theorem parseStringBody_round (l : List Char) (rest : List Char) :
    parseStringBody ((l.map escChar).flatten ++ '"' :: rest) = some (l, rest) := by
  induction l with
  | nil =>
    rw [List.map_nil, List.flatten_nil, List.nil_append, parseStringBody.eq_def]
    simp
  | cons c cs ih =>
    by_cases h1 : c = '"'
    · subst h1
      have hs : (List.map escChar ('"' :: cs)).flatten ++ '"' :: rest
          = '\\' :: '"' :: ((List.map escChar cs).flatten ++ '"' :: rest) := by
        simp [escChar]
      rw [hs, parseStringBody.eq_def]
      simp [unescChar, ih]
    · by_cases h2 : c = '\\'
      · subst h2
        have hs : (List.map escChar ('\\' :: cs)).flatten ++ '"' :: rest
            = '\\' :: '\\' :: ((List.map escChar cs).flatten ++ '"' :: rest) := by
          simp [escChar]
        rw [hs, parseStringBody.eq_def]
        simp [unescChar, ih]
      · by_cases h3 : c = Char.ofNat 10
        · subst h3
          have hs : (List.map escChar (Char.ofNat 10 :: cs)).flatten ++ '"' :: rest
              = '\\' :: 'n' :: ((List.map escChar cs).flatten ++ '"' :: rest) := by
            simp [escChar]
          rw [hs, parseStringBody.eq_def]
          simp [unescChar, ih]
        · by_cases h4 : c = Char.ofNat 9
          · subst h4
            have hs : (List.map escChar (Char.ofNat 9 :: cs)).flatten ++ '"' :: rest
                = '\\' :: 't' :: ((List.map escChar cs).flatten ++ '"' :: rest) := by
              simp [escChar]
            rw [hs, parseStringBody.eq_def]
            simp [unescChar, ih]
          · by_cases h5 : c = Char.ofNat 13
            · subst h5
              have hs : (List.map escChar (Char.ofNat 13 :: cs)).flatten ++ '"' :: rest
                  = '\\' :: 'r' :: ((List.map escChar cs).flatten ++ '"' :: rest) := by
                simp [escChar]
              rw [hs, parseStringBody.eq_def]
              simp [unescChar, ih]
            · have hs : (List.map escChar (c :: cs)).flatten ++ '"' :: rest
                  = c :: ((List.map escChar cs).flatten ++ '"' :: rest) := by
                simp [escChar, h1, h2, h3, h4, h5]
              rw [hs, parseStringBody.eq_def]
              simp [h1, h2, ih]

/-! ## Head and size lemmas for the serializer -/

theorem dumpChars_head (v : Json) :
    ∃ c cs, dumpChars v = c :: cs ∧ c ≠ ']' ∧ c ≠ rbrace := by
  cases v with
  | null => refine ⟨'n', _, rfl, ?_, ?_⟩ <;> decide
  | bool b =>
    cases b with
    | true => refine ⟨'t', _, rfl, ?_, ?_⟩ <;> decide
    | false => refine ⟨'f', _, rfl, ?_, ?_⟩ <;> decide
  | num n =>
    cases n with
    | ofNat m =>
      obtain ⟨c, cs, hc⟩ : ∃ c cs, natChars m = c :: cs := by
        cases hnc : natChars m with
        | nil => exact absurd hnc (natChars_ne_nil m)
        | cons c cs => exact ⟨c, cs, rfl⟩
      have hd : c.isDigit = true := natChars_digits m c (by rw [hc]; simp)
      exact ⟨c, cs, by rw [dumpChars, intChars, hc],
        (isDigit_ne_special c hd).2.2.1,
        (isDigit_ne_special c hd).2.2.2.2.1⟩
    | negSucc m =>
      refine ⟨'-', natChars (m + 1), by rw [dumpChars, intChars], ?_, ?_⟩ <;> decide
  | str s => refine ⟨'"', _, rfl, ?_, ?_⟩ <;> decide
  | arr es => refine ⟨'[', _, rfl, ?_, ?_⟩ <;> decide
  | obj ms => refine ⟨lbrace, _, rfl, ?_, ?_⟩ <;> decide

theorem dumpElemsChars_cons (x : Json) (xs : List Json) :
    ∃ t, dumpElemsChars (x :: xs) = dumpChars x ++ t := by
  cases xs with
  | nil => exact ⟨[], by simp [dumpElemsChars]⟩
  | cons y ys => exact ⟨',' :: dumpElemsChars (y :: ys), by simp [dumpElemsChars]⟩

theorem dumpMembersChars_cons (k : String) (v : Json) (ms : List (String × Json)) :
    ∃ t, dumpMembersChars ((k, v) :: ms) = '"' :: (escString k ++ ('"' :: ':' :: (dumpChars v ++ t))) := by
  cases ms with
  | nil => exact ⟨[], by simp [dumpMembersChars]⟩
  | cons m rest =>
    exact ⟨',' :: dumpMembersChars (m :: rest), by simp [dumpMembersChars]⟩

theorem jsonCost_pos (v : Json) : 1 ≤ jsonCost v := by
  cases v <;> simp only [jsonCost] <;> omega

theorem elemsCost_pos (es : List Json) : 1 ≤ elemsCost es := by
  cases es <;> simp only [elemsCost] <;> omega

theorem membersCost_pos (ms : List (String × Json)) : 1 ≤ membersCost ms := by
  cases ms <;> simp only [membersCost] <;> omega

mutual

/-- The fuel needed for a value stays below twice the length of its
serialization. -/
theorem jsonCost_le : ∀ v : Json, jsonCost v + 1 ≤ 2 * (dumpChars v).length
  | .null => by
    have hlen : (dumpChars Json.null).length = 4 := rfl
    simp only [jsonCost]
    omega
  | .bool true => by
    have hlen : (dumpChars (Json.bool true)).length = 4 := rfl
    simp only [jsonCost]
    omega
  | .bool false => by
    have hlen : (dumpChars (Json.bool false)).length = 5 := rfl
    simp only [jsonCost]
    omega
  | .num n => by
    have h : 1 ≤ (intChars n).length := by
      cases n with
      | ofNat m => simpa [intChars] using List.length_pos.mpr (natChars_ne_nil m)
      | negSucc m => simp [intChars]
    simp only [jsonCost, dumpChars]
    omega
  | .str s => by
    simp only [jsonCost, dumpChars, List.length_cons, List.length_append]
    omega
  | .arr [] => by simp [jsonCost, elemsCost, dumpChars, dumpElemsChars]
  | .arr (x :: xs) => by
    have h := elemsCost_le (x :: xs) (by simp)
    simp only [jsonCost, dumpChars, List.length_cons, List.length_append,
      List.length_singleton] at h ⊢
    omega
  | .obj [] => by simp [jsonCost, membersCost, dumpChars, dumpMembersChars]
  | .obj (m :: ms) => by
    have h := membersCost_le (m :: ms) (by simp)
    simp only [jsonCost, dumpChars, List.length_cons, List.length_append,
      List.length_singleton] at h ⊢
    omega

/-- The fuel needed for nonempty array elements stays below twice the
length of their serialization plus one. -/
theorem elemsCost_le : ∀ es : List Json, es ≠ [] →
    elemsCost es ≤ 2 * (dumpElemsChars es).length + 1
  | [], h => absurd rfl h
  | [x], _ => by
    have h := jsonCost_le x
    simp only [elemsCost, dumpElemsChars]
    omega
  | x :: y :: rest, _ => by
    have h1 := jsonCost_le x
    have h2 := elemsCost_le (y :: rest) (by simp)
    simp only [elemsCost, dumpElemsChars, List.length_append, List.length_cons] at h2 ⊢
    omega

/-- The fuel needed for nonempty object members stays below twice the
length of their serialization plus one. -/
theorem membersCost_le : ∀ ms : List (String × Json), ms ≠ [] →
    membersCost ms ≤ 2 * (dumpMembersChars ms).length + 1
  | [], h => absurd rfl h
  | [(k, v)], _ => by
    have h := jsonCost_le v
    simp only [membersCost, dumpMembersChars, List.length_cons, List.length_append]
    omega
  | (k, v) :: m :: rest, _ => by
    have h1 := jsonCost_le v
    have h2 := membersCost_le (m :: rest) (by simp)
    simp only [membersCost, dumpMembersChars, List.length_append, List.length_cons] at h2 ⊢
    omega

end

/-! ## Lemmas on substring containment -/

theorem charsPrefixOf_self_append (p t : List Char) : charsPrefixOf p (p ++ t) = true := by
  induction p with
  | nil => simp [charsPrefixOf]
  | cons a as ih => simp [charsPrefixOf, ih]

theorem charsSubstrOf_nil (t : List Char) : charsSubstrOf [] t = true := by
  cases t <;> simp [charsSubstrOf, charsPrefixOf]

theorem charsSubstrOf_append_right (x t p : List Char) (h : charsSubstrOf p t = true) :
    charsSubstrOf p (x ++ t) = true := by
  induction x with
  | nil => simpa using h
  | cons c cs ih => simp [charsSubstrOf, ih]

theorem charsSubstrOf_self_append (p t : List Char) : charsSubstrOf p (p ++ t) = true := by
  cases p with
  | nil => exact charsSubstrOf_nil t
  | cons a as =>
    have h := charsPrefixOf_self_append (a :: as) t
    simp only [List.cons_append] at h ⊢
    simp [charsSubstrOf, h]

theorem substrOf_middle (a pat b : String) : substrOf pat (a ++ pat ++ b) = true := by
  simp only [substrOf, String.toList, String.data_append, List.append_assoc]
  exact charsSubstrOf_append_right _ _ _ (charsSubstrOf_self_append _ _)

theorem substrOf_append_self (a pat : String) : substrOf pat (a ++ pat) = true := by
  simp only [substrOf, String.toList, String.data_append]
  have h := charsSubstrOf_self_append pat.data []
  simp only [List.append_nil] at h
  exact charsSubstrOf_append_right _ _ _ h

theorem substrOf_right (a b pat : String) (h : substrOf pat b = true) :
    substrOf pat (a ++ b) = true := by
  simp only [substrOf, String.toList, String.data_append]
  exact charsSubstrOf_append_right _ _ _ h

/-! ## C1: Load.process on unrecognized strategy tags -/

/-- C1, counterexample.  The claim says every tag other than single_file
and multi_file makes process fail with the UnknownMethod AttributeError;
the tag method names an existing attribute of the instance (the stored
tag string itself), so getattr succeeds and no AttributeError is
raised: the dispatch calls that attribute instead. -/
theorem load_process_method_tag_not_unknown_error :
    Load.process (List String) (Option String) "method" ["path.nc"] none
      = .otherAttributeCall "method"
    ∧ isAttributeError (List String) (Option String)
        (Load.process (List String) (Option String) "method" ["path.nc"] none) = false :=
  ⟨rfl, by decide⟩

/-- C1, amended.  For every strategy tag that names no attribute of the
Load instance, process with any filepath and any filter fails with the
AttributeError whose message names the offending tag and the component
Load. -/
theorem load_process_unknown_tag_fails (α β : Type) (m : String)
    (h : m ∉ loadInstanceAttrs) (fp : α) (d : β) :
    Load.process α β m fp d
      = .attributeError ("Unknown method \"" ++ m ++ "\" passed to Load.")
    ∧ substrOf m ("Unknown method \"" ++ m ++ "\" passed to Load.") = true
    ∧ substrOf "Load" ("Unknown method \"" ++ m ++ "\" passed to Load.") = true := by
  refine ⟨by simp [Load.process, h], ?_, ?_⟩
  · exact substrOf_middle "Unknown method \"" m "\" passed to Load."
  · exact substrOf_right ("Unknown method \"" ++ m) "\" passed to Load." "Load" (by decide)

/-- C1, witness at the concrete tag bogus_mode of the spec scenario. -/
theorem load_process_unknown_tag_fails_witness :
    Load.process String (Option String) "bogus_mode" "path.nc" none
      = .attributeError "Unknown method \"bogus_mode\" passed to Load."
    ∧ substrOf "bogus_mode" "Unknown method \"bogus_mode\" passed to Load." = true
    ∧ substrOf "Load" "Unknown method \"bogus_mode\" passed to Load." = true :=
  load_process_unknown_tag_fails String (Option String) "bogus_mode" (by decide) "path.nc" none

/-! ## C7: unrecognized extraction methods have no prerequisites -/

/-- C7.  For every method other than model_level_temperature_lapse_rate,
get_method_prerequisites returns None without error, and the result does
not depend on the directory tree or the loader: the filesystem is never
touched. -/
theorem unknown_method_no_prerequisites (κ : Type)
    (irisLoad : List String → Option String → List κ) (m : String)
    (h : m ≠ "model_level_temperature_lapse_rate")
    (p : String) (t : DirTree) :
    get_method_prerequisites κ irisLoad m p t = .ok none := by
  simp [get_method_prerequisites, h]

/-- C7, witness at the unseen tag bogus and at the empty string. -/
theorem unknown_method_no_prerequisites_witness :
    get_method_prerequisites Nat (fun _ _ => []) "bogus" "/d" (DirTree.node [] []) = .ok none
    ∧ get_method_prerequisites Nat (fun _ _ => []) "" "/d" (DirTree.node [] []) = .ok none :=
  ⟨unknown_method_no_prerequisites Nat (fun _ _ => []) "bogus" (by decide) "/d"
      (DirTree.node [] []),
   unknown_method_no_prerequisites Nat (fun _ _ => []) "" (by decide) "/d"
      (DirTree.node [] [])⟩

/-! ## C8: data_from_dictionary -/

/-- C8.  On a non-dictionary input the accessor fails with the
InvalidDictionary TypeError for every key; on a dictionary without the
key it fails with the KeyError naming the key; on a dictionary holding
the key it returns exactly the stored value. -/
theorem data_from_dictionary_contract :
    (∀ (v : PyVal) (key : String), v.isDict = false →
      data_from_dictionary v key
        = .error (.typeError "Invalid type sent to data_from_dictionary - Not a dictionary."))
    ∧ (∀ (entries : List (String × PyVal)) (key : String), entries.lookup key = none →
      data_from_dictionary (.dict entries) key
        = .error (.keyError ("Data " ++ key ++ " not found in dictionary."))
      ∧ substrOf key ("Data " ++ key ++ " not found in dictionary.") = true)
    ∧ (∀ (entries : List (String × PyVal)) (key : String) (v : PyVal),
      entries.lookup key = some v →
      data_from_dictionary (.dict entries) key = .ok v) := by
  refine ⟨?_, ?_, ?_⟩
  · intro v key hv
    cases v with
    | dict entries => simp [PyVal.isDict] at hv
    | strVal s => rfl
    | intVal n => rfl
    | listVal xs => rfl
    | boolVal b => rfl
    | noneVal => rfl
  · intro entries key hl
    exact ⟨by simp [data_from_dictionary, hl],
      substrOf_middle "Data " key " not found in dictionary."⟩
  · intro entries key v hl
    simp [data_from_dictionary, hl]

/-- C8, witness: a string input, a missing key and a present key. -/
theorem data_from_dictionary_contract_witness :
    data_from_dictionary (.strVal "x") "k"
      = .error (.typeError "Invalid type sent to data_from_dictionary - Not a dictionary.")
    ∧ data_from_dictionary (.dict [("a", .intVal 1)]) "b"
      = .error (.keyError "Data b not found in dictionary.")
    ∧ data_from_dictionary (.dict [("a", .intVal 1)]) "a" = .ok (.intVal 1) :=
  ⟨data_from_dictionary_contract.1 (.strVal "x") "k" rfl,
   (data_from_dictionary_contract.2.1 [("a", .intVal 1)] "b" rfl).1,
   data_from_dictionary_contract.2.2 [("a", .intVal 1)] "a" (.intVal 1) rfl⟩

/-! ## C6: the selected files are exactly the matching files of the subtree -/

mutual

/-- Walk-and-filter selection agrees with filtering the recursively
collected subtree files by filename containment. -/
theorem walkSel_eq (dn : String) : ∀ (p : String) (t : DirTree),
    ((osWalk p t).map (fun pr => (pr.2.filter (fun fn => substrOf dn fn)).map
      (fun fn => pathJoin pr.1 fn))).flatten
    = ((allFiles p t).filter (fun e => substrOf dn e.2)).map (fun e => pathJoin e.1 e.2)
  | p, .node subdirs files => by
    have hrec := walkSelList_eq dn p subdirs
    simp only [osWalk, allFiles, List.map_cons, List.flatten_cons, List.filter_append,
      List.map_append, hrec, List.filter_map, List.map_map]
    rfl

/-- List version of the walk-and-filter agreement, over the named
subdirectories in order. -/
theorem walkSelList_eq (dn : String) : ∀ (p : String) (l : List (String × DirTree)),
    ((osWalkList p l).map (fun pr => (pr.2.filter (fun fn => substrOf dn fn)).map
      (fun fn => pathJoin pr.1 fn))).flatten
    = ((allFilesList p l).filter (fun e => substrOf dn e.2)).map (fun e => pathJoin e.1 e.2)
  | _, [] => by simp [osWalkList, allFilesList]
  | p, (nm, t) :: rest => by
    have h1 := walkSel_eq dn (pathJoin p nm) t
    have h2 := walkSelList_eq dn p rest
    simp only [osWalkList, allFilesList, List.map_append, List.flatten_append,
      List.filter_append, h1, h2]

end

/-- C6.  For every diagnostic name, root path and directory tree, the
files selected for loading are exactly the regular files of the full
recursive subtree whose filename (not the full path) contains the
diagnostic name as a case-sensitive substring, each joined onto the path
of its directory. -/
theorem files_selected_exactly_matching (dn p : String) (t : DirTree) :
    filesToRead dn p t
      = ((allFiles p t).filter (fun e => substrOf dn e.2)).map (fun e => pathJoin e.1 e.2) :=
  walkSel_eq dn p t

/-! ## C4: behaviour when zero files qualify -/

/-- C4, counterexample.  The claim says the failure names both the
diagnostic and the root directory; the raised message is built only from
the directory and does not contain the diagnostic name. -/
theorem not_found_message_omits_diagnostic :
    get_additional_diagnostics Nat (fun _ _ => []) "pressure_on_height_levels" "/data"
        (DirTree.node [] []) none
      = .error (.ioError "No relevant data files found in /data.")
    ∧ substrOf "pressure_on_height_levels" "No relevant data files found in /data." = false :=
  ⟨rfl, by decide⟩

/-- C4, amended.  Whenever zero files qualify, the component fails with
the IOError whose message names the root directory (the diagnostic name
is not part of the message), for every time filter. -/
theorem no_files_fails_naming_directory (κ : Type)
    (irisLoad : List String → Option String → List κ)
    (dn p : String) (t : DirTree) (tf : Option (TimeFilter κ))
    (h : filesToRead dn p t = []) :
    get_additional_diagnostics κ irisLoad dn p t tf
      = .error (.ioError ("No relevant data files found in " ++ p ++ "."))
    ∧ substrOf p ("No relevant data files found in " ++ p ++ ".") = true :=
  ⟨by simp [get_additional_diagnostics, h],
   substrOf_middle "No relevant data files found in " p "."⟩

/-- C4, witness: an empty directory. -/
theorem no_files_fails_naming_directory_witness :
    get_additional_diagnostics Nat (fun _ _ => []) "surface_pressure" "/data"
        (DirTree.node [] ["other.nc"]) none
      = .error (.ioError "No relevant data files found in /data.")
    ∧ substrOf "/data" "No relevant data files found in /data." = true :=
  no_files_fails_naming_directory Nat (fun _ _ => []) "surface_pressure" "/data"
    (DirTree.node [] ["other.nc"]) none (by decide)

/-! ## C5: the time filter as a post-load constraint -/

/-- Helper: with at least one qualifying file and no time filter, the
component returns exactly what the multi_file load of the selected files
produces. -/
theorem gad_none_ok (κ : Type) (irisLoad : List String → Option String → List κ)
    (dn p : String) (t : DirTree) (h : filesToRead dn p t ≠ []) :
    get_additional_diagnostics κ irisLoad dn p t none
      = .ok (multi_file κ irisLoad (filesToRead dn p t) none) := by
  simp [get_additional_diagnostics, h]

/-- Helper: with at least one qualifying file and a time filter whose
extraction is empty, the component fails with the ValueError. -/
theorem gad_some_err (κ : Type) (irisLoad : List String → Option String → List κ)
    (dn p : String) (t : DirTree) (tf : TimeFilter κ)
    (h : filesToRead dn p t ≠ [])
    (hempty : (multi_file κ irisLoad (filesToRead dn p t) none).filter tf.pred = []) :
    get_additional_diagnostics κ irisLoad dn p t (some tf)
      = .error (.valueError ("No diagnostics match " ++ tf.shown)) := by
  simp [get_additional_diagnostics, h, hempty]

/-- Helper: with at least one qualifying file and a time filter whose
extraction is nonempty, the component returns the extraction. -/
theorem gad_some_ok (κ : Type) (irisLoad : List String → Option String → List κ)
    (dn p : String) (t : DirTree) (tf : TimeFilter κ)
    (h : filesToRead dn p t ≠ [])
    (hne : (multi_file κ irisLoad (filesToRead dn p t) none).filter tf.pred ≠ []) :
    get_additional_diagnostics κ irisLoad dn p t (some tf)
      = .ok ((multi_file κ irisLoad (filesToRead dn p t) none).filter tf.pred) := by
  simp [get_additional_diagnostics, h, hne]

/-- C5.  With at least one qualifying file: without a time filter the
full loaded collection is returned unfiltered; with a time filter the
filter is applied to the loaded collection, an empty filtered result
fails with the ValueError naming the filter value, and a nonempty
filtered result is returned. -/
theorem time_filter_behavior (κ : Type)
    (irisLoad : List String → Option String → List κ)
    (dn p : String) (t : DirTree) (h : filesToRead dn p t ≠ [])
    (tf : TimeFilter κ) :
    get_additional_diagnostics κ irisLoad dn p t none
      = .ok (multi_file κ irisLoad (filesToRead dn p t) none)
    ∧ ((multi_file κ irisLoad (filesToRead dn p t) none).filter tf.pred = [] →
      get_additional_diagnostics κ irisLoad dn p t (some tf)
        = .error (.valueError ("No diagnostics match " ++ tf.shown))
      ∧ substrOf tf.shown ("No diagnostics match " ++ tf.shown) = true)
    ∧ ((multi_file κ irisLoad (filesToRead dn p t) none).filter tf.pred ≠ [] →
      get_additional_diagnostics κ irisLoad dn p t (some tf)
        = .ok ((multi_file κ irisLoad (filesToRead dn p t) none).filter tf.pred)) := by
  refine ⟨gad_none_ok κ irisLoad dn p t h, ?_, ?_⟩
  · intro hempty
    exact ⟨gad_some_err κ irisLoad dn p t tf h hempty,
      substrOf_append_self "No diagnostics match " tf.shown⟩
  · intro hne
    exact gad_some_ok κ irisLoad dn p t tf h hne

/-- C5, witness: one matching file, a filter matching nothing and a
filter matching everything. -/
theorem time_filter_behavior_witness :
    get_additional_diagnostics String (fun fs _ => fs) "d" "/r"
        (DirTree.node [] ["d1.nc"]) (some ⟨fun _ => false, "t0"⟩)
      = .error (.valueError "No diagnostics match t0")
    ∧ get_additional_diagnostics String (fun fs _ => fs) "d" "/r"
        (DirTree.node [] ["d1.nc"]) (some ⟨fun _ => true, "t0"⟩)
      = .ok ["/r/d1.nc"] :=
  ⟨((time_filter_behavior String (fun fs _ => fs) "d" "/r" (DirTree.node [] ["d1.nc"])
      (by decide) ⟨fun _ => false, "t0"⟩).2.1 rfl).1,
   (time_filter_behavior String (fun fs _ => fs) "d" "/r" (DirTree.node [] ["d1.nc"])
      (by decide) ⟨fun _ => true, "t0"⟩).2.2 (by decide)⟩

/-! ## C3: emptiness of returned collections -/

/-- C3, counterexample.  When the external loader yields an empty
collection for the matched files and no time filter is supplied, the
component returns that empty collection instead of failing: one file
qualifies here, the loader returns nothing, and the result is ok []. -/
theorem diagnostics_empty_collection_returned :
    get_additional_diagnostics Nat (fun _ _ => []) "d" "/r"
        (DirTree.node [] ["d_file.nc"]) none
      = .ok [] := rfl

/-- C3, amended.  Provided the external loader returns a nonempty
collection on every nonempty file list, every collection returned by the
component (for any diagnostic, root, tree and optional filter) is
nonempty; without that proviso the guarantee holds whenever a time
filter is supplied, because an empty filtered result fails instead. -/
theorem diagnostics_nonempty_of_loader_nonempty (κ : Type)
    (irisLoad : List String → Option String → List κ)
    (dn p : String) (t : DirTree) (tf : Option (TimeFilter κ)) (c : List κ)
    (hload : ∀ fs : List String, fs ≠ [] → irisLoad fs none ≠ [])
    (h : get_additional_diagnostics κ irisLoad dn p t tf = .ok c) :
    c ≠ [] := by
  by_cases hf : filesToRead dn p t = []
  · simp [get_additional_diagnostics, hf] at h
  · cases tf with
    | none =>
      rw [gad_none_ok κ irisLoad dn p t hf] at h
      cases h
      exact hload _ hf
    | some tfv =>
      by_cases hflt : (multi_file κ irisLoad (filesToRead dn p t) none).filter tfv.pred = []
      · simp [get_additional_diagnostics, hf, hflt] at h
      · rw [gad_some_ok κ irisLoad dn p t tfv hf hflt] at h
        cases h
        exact hflt

/-- C3, witness: the identity loader on one matching file. -/
theorem diagnostics_nonempty_witness : (["/r/d1.nc"] : List String) ≠ [] :=
  diagnostics_nonempty_of_loader_nonempty String (fun fs _ => fs) "d" "/r"
    (DirTree.node [] ["d1.nc"]) none ["/r/d1.nc"] (fun _ hfs => hfs) rfl

/-! ## C2: the prerequisite map of model_level_temperature_lapse_rate -/

/-- C2.  When each of the three required diagnostics has at least one
matching file under the root, resolution for the method
model_level_temperature_lapse_rate succeeds with a map whose keys are
exactly the three required names, in order, no extras and no omissions,
each bound to the value produced by get_additional_diagnostics for that
name with no time filter. -/
theorem prerequisites_lapse_rate_keys_exact (κ : Type)
    (irisLoad : List String → Option String → List κ)
    (p : String) (t : DirTree)
    (h1 : filesToRead "temperature_on_height_levels" p t ≠ [])
    (h2 : filesToRead "pressure_on_height_levels" p t ≠ [])
    (h3 : filesToRead "surface_pressure" p t ≠ []) :
    get_additional_diagnostics κ irisLoad "temperature_on_height_levels" p t none
      = .ok (multi_file κ irisLoad (filesToRead "temperature_on_height_levels" p t) none)
    ∧ get_additional_diagnostics κ irisLoad "pressure_on_height_levels" p t none
      = .ok (multi_file κ irisLoad (filesToRead "pressure_on_height_levels" p t) none)
    ∧ get_additional_diagnostics κ irisLoad "surface_pressure" p t none
      = .ok (multi_file κ irisLoad (filesToRead "surface_pressure" p t) none)
    ∧ get_method_prerequisites κ irisLoad "model_level_temperature_lapse_rate" p t
      = .ok (some
        [("temperature_on_height_levels",
          multi_file κ irisLoad (filesToRead "temperature_on_height_levels" p t) none),
         ("pressure_on_height_levels",
          multi_file κ irisLoad (filesToRead "pressure_on_height_levels" p t) none),
         ("surface_pressure",
          multi_file κ irisLoad (filesToRead "surface_pressure" p t) none)]) := by
  have g1 := gad_none_ok κ irisLoad "temperature_on_height_levels" p t h1
  have g2 := gad_none_ok κ irisLoad "pressure_on_height_levels" p t h2
  have g3 := gad_none_ok κ irisLoad "surface_pressure" p t h3
  refine ⟨g1, g2, g3, ?_⟩
  simp [get_method_prerequisites, collectPrereqs, g1, g2, g3]

/-- C2, witness: the spec scenario, a flat root with the three matching
files and one unrelated file, each diagnostic matching exactly one file. -/
theorem prerequisites_lapse_rate_keys_exact_witness :
    get_method_prerequisites String (fun fs _ => fs)
        "model_level_temperature_lapse_rate" "/d"
        (DirTree.node [] ["foo_temperature_on_height_levels_20200101.nc",
          "foo_pressure_on_height_levels_20200101.nc",
          "foo_surface_pressure_20200101.nc", "unrelated.nc"])
      = .ok (some
        [("temperature_on_height_levels", ["/d/foo_temperature_on_height_levels_20200101.nc"]),
         ("pressure_on_height_levels", ["/d/foo_pressure_on_height_levels_20200101.nc"]),
         ("surface_pressure", ["/d/foo_surface_pressure_20200101.nc"])]) :=
  (prerequisites_lapse_rate_keys_exact String (fun fs _ => fs) "/d"
    (DirTree.node [] ["foo_temperature_on_height_levels_20200101.nc",
      "foo_pressure_on_height_levels_20200101.nc",
      "foo_surface_pressure_20200101.nc", "unrelated.nc"])
    (by decide) (by decide) (by decide)).2.2.2

/-! ## The JSON round trip: C9 and C10 -/

/-- Unfolding of the element parser at positive fuel. -/
theorem parseElems_succ (n : Nat) (cs : List Char) :
    parseElems (n + 1) cs =
      match parseJson n cs with
      | none => none
      | some (v, r) =>
        match r with
        | [] => none
        | c :: r2 =>
          if c = ',' then
            match parseElems n r2 with
            | none => none
            | some (vs, r3) => some (v :: vs, r3)
          else if c = ']' then some ([v], r2)
          else none := rfl

/-- Unfolding of the member parser at positive fuel. -/
theorem parseMembers_succ (n : Nat) (cs : List Char) :
    parseMembers (n + 1) cs =
      match cs with
      | [] => none
      | c :: rest =>
        if c = '"' then
          match parseStringBody rest with
          | none => none
          | some (k, r) =>
            match r with
            | [] => none
            | c2 :: r2 =>
              if c2 = ':' then
                match parseJson n r2 with
                | none => none
                | some (v, r3) =>
                  match r3 with
                  | [] => none
                  | c3 :: r4 =>
                    if c3 = ',' then
                      match parseMembers n r4 with
                      | none => none
                      | some (ms, r5) => some ((String.mk k, v) :: ms, r5)
                    else if c3 = rbrace then some ([(String.mk k, v)], r4)
                    else none
              else none
        else none := rfl

/-- Main round-trip invariant: with enough fuel, parsing the
serialization of a value (or of nonempty element and member lists)
in front of any remainder without a leading digit recovers exactly the
value and the remainder. -/
theorem parse_dump (fuel : Nat) :
    (∀ (v : Json) (rest : List Char), jsonCost v ≤ fuel → noDigitHead rest = true →
      parseJson fuel (dumpChars v ++ rest) = some (v, rest))
    ∧ (∀ (es : List Json) (rest : List Char), es ≠ [] → elemsCost es ≤ fuel →
      parseElems fuel (dumpElemsChars es ++ ']' :: rest) = some (es, rest))
    ∧ (∀ (ms : List (String × Json)) (rest : List Char), ms ≠ [] → membersCost ms ≤ fuel →
      parseMembers fuel (dumpMembersChars ms ++ rbrace :: rest) = some (ms, rest)) := by
  induction fuel with
  | zero =>
    refine ⟨fun v rest hc _ => ?_, fun es rest hne hc => ?_, fun ms rest hne hc => ?_⟩
    · exact absurd hc (by have := jsonCost_pos v; omega)
    · exact absurd hc (by have := elemsCost_pos es; omega)
    · exact absurd hc (by have := membersCost_pos ms; omega)
  | succ n ih =>
    obtain ⟨ihJ, ihE, ihM⟩ := ih
    refine ⟨?_, ?_, ?_⟩
    · intro v rest hc hrest
      cases v with
      | null =>
        have hs : dumpChars Json.null ++ rest = 'n' :: ('u' :: ('l' :: ('l' :: rest))) := by
          simp only [dumpChars]
          rfl
        rw [hs, parseJson.eq_def]
        simp [afterLit]
      | bool b =>
        cases b with
        | false =>
          have hs : dumpChars (Json.bool false) ++ rest
              = 'f' :: ('a' :: ('l' :: ('s' :: ('e' :: rest)))) := by
            simp only [dumpChars]
            rfl
          rw [hs, parseJson.eq_def]
          simp [afterLit]
        | true =>
          have hs : dumpChars (Json.bool true) ++ rest
              = 't' :: ('r' :: ('u' :: ('e' :: rest))) := by
            simp only [dumpChars]
            rfl
          rw [hs, parseJson.eq_def]
          simp [afterLit]
      | num k =>
        simp only [dumpChars]
        cases k with
        | ofNat m =>
          obtain ⟨c, cs, hc1⟩ : ∃ c cs, natChars m = c :: cs := by
            cases hnc : natChars m with
            | nil => exact absurd hnc (natChars_ne_nil m)
            | cons c cs => exact ⟨c, cs, rfl⟩
          have hd : c.isDigit = true := natChars_digits m c (by rw [hc1]; simp)
          obtain ⟨hmi, hlb, hrb, hbrL, hbrR, hn, ht, hf, hq⟩ := isDigit_ne_special c hd
          have hstream : intChars (Int.ofNat m) ++ rest = c :: (cs ++ rest) := by
            rw [intChars, hc1, List.cons_append]
          rw [hstream, parseJson.eq_def]
          simp only [hn, ht, hf, hq, hlb, hbrL, hd, ite_false, ite_true,
            Bool.or_true, if_false, if_true]
          rw [← hstream, parseNumberChars_intChars (Int.ofNat m) rest hrest]
          rfl
        | negSucc m =>
          have hstream : intChars (Int.negSucc m) ++ rest
              = '-' :: (natChars (m + 1) ++ rest) := by
            rw [intChars, List.cons_append]
          rw [hstream, parseJson.eq_def]
          simp only [reduceIte]
          rw [← hstream, parseNumberChars_intChars (Int.negSucc m) rest hrest]
          rfl
      | str s =>
        have hs : dumpChars (Json.str s) ++ rest
            = '"' :: ((List.map escChar s.toList).flatten ++ '"' :: rest) := by
          simp only [dumpChars, escString, List.cons_append, List.append_assoc,
            List.singleton_append, List.nil_append]
        rw [hs, parseJson.eq_def]
        simp only [reduceIte]
        rw [parseStringBody_round s.toList rest]
        rfl
      | arr es =>
        cases es with
        | nil =>
          have hs : dumpChars (Json.arr []) ++ rest = '[' :: (']' :: rest) := by
            simp [dumpChars, dumpElemsChars]
          rw [hs, parseJson.eq_def]
          simp
        | cons x xs =>
          obtain ⟨c, cs, hx, hc1, hc2⟩ := dumpChars_head x
          obtain ⟨t, ht2⟩ := dumpElemsChars_cons x xs
          have hcost : elemsCost (x :: xs) ≤ n := by
            simp only [jsonCost] at hc
            omega
          have hstream : dumpChars (Json.arr (x :: xs)) ++ rest
              = '[' :: (c :: (cs ++ (t ++ (']' :: rest)))) := by
            simp only [dumpChars, ht2, hx, List.cons_append, List.append_assoc,
              List.nil_append]
          rw [hstream, parseJson.eq_def]
          simp only [reduceIte, hc1, ite_false, if_false]
          have harg : c :: (cs ++ (t ++ (']' :: rest)))
              = dumpElemsChars (x :: xs) ++ ']' :: rest := by
            rw [ht2, hx]
            simp [List.cons_append, List.append_assoc]
          rw [harg, ihE (x :: xs) rest (by simp) hcost]
          rfl
      | obj ms =>
        cases ms with
        | nil =>
          have hs : dumpChars (Json.obj []) ++ rest = lbrace :: (rbrace :: rest) := by
            simp [dumpChars, dumpMembersChars]
          rw [hs, parseJson.eq_def]
          simp [lbrace, rbrace]
        | cons m tail =>
          obtain ⟨k, v⟩ := m
          obtain ⟨t, ht2⟩ := dumpMembersChars_cons k v tail
          have hcost : membersCost ((k, v) :: tail) ≤ n := by
            simp only [jsonCost] at hc
            omega
          have e1 : lbrace ≠ 'n' := by decide
          have e2 : lbrace ≠ 't' := by decide
          have e3 : lbrace ≠ 'f' := by decide
          have e4 : lbrace ≠ '"' := by decide
          have e5 : lbrace ≠ '[' := by decide
          have e6 : ('"' : Char) ≠ rbrace := by decide
          have hstream : dumpChars (Json.obj ((k, v) :: tail)) ++ rest
              = lbrace :: ('"' :: ((escString k
                  ++ ('"' :: ':' :: (dumpChars v ++ t))) ++ (rbrace :: rest))) := by
            simp only [dumpChars, ht2, List.cons_append, List.append_assoc, List.nil_append]
          rw [hstream, parseJson.eq_def]
          simp only [e1, e2, e3, e4, e5, e6, eq_self_iff_true, ite_false, if_false,
            ite_true, if_true]
          have harg : '"' :: ((escString k ++ ('"' :: ':' :: (dumpChars v ++ t)))
                ++ (rbrace :: rest))
              = dumpMembersChars ((k, v) :: tail) ++ rbrace :: rest := by
            rw [ht2]
            simp [List.cons_append, List.append_assoc]
          rw [harg, ihM ((k, v) :: tail) rest (by simp) hcost]
          rfl
    · intro es rest hne hc
      cases es with
      | nil => exact absurd rfl hne
      | cons x xs =>
        cases xs with
        | nil =>
          have hx : jsonCost x ≤ n := by
            simp only [elemsCost] at hc
            omega
          have hs : dumpElemsChars [x] ++ ']' :: rest = dumpChars x ++ (']' :: rest) := by
            simp [dumpElemsChars]
          have hnd : noDigitHead (']' :: rest) = true := rfl
          rw [parseElems_succ, hs, ihJ x (']' :: rest) hx hnd]
          simp
        | cons y ys =>
          have hx1 : jsonCost x ≤ n := by
            simp only [elemsCost] at hc
            have hp1 := jsonCost_pos y
            have hp2 := elemsCost_pos ys
            omega
          have hx2 : elemsCost (y :: ys) ≤ n := by
            simp only [elemsCost] at hc ⊢
            have hp := jsonCost_pos x
            omega
          have hs : dumpElemsChars (x :: y :: ys) ++ ']' :: rest
              = dumpChars x ++ (',' :: (dumpElemsChars (y :: ys) ++ ']' :: rest)) := by
            simp [dumpElemsChars, List.cons_append, List.append_assoc]
          have hnd : noDigitHead (',' :: (dumpElemsChars (y :: ys) ++ ']' :: rest)) = true := rfl
          rw [parseElems_succ, hs, ihJ x _ hx1 hnd]
          simp [ihE (y :: ys) rest (by simp) hx2]
    · intro ms rest hne hc
      cases ms with
      | nil => exact absurd rfl hne
      | cons m tail =>
        obtain ⟨k, v⟩ := m
        cases tail with
        | nil =>
          have hv : jsonCost v ≤ n := by
            simp only [membersCost] at hc
            omega
          have hs : dumpMembersChars [(k, v)] ++ rbrace :: rest
              = '"' :: ((List.map escChar k.toList).flatten
                  ++ '"' :: (':' :: (dumpChars v ++ rbrace :: rest))) := by
            simp [dumpMembersChars, escString, List.cons_append, List.append_assoc]
          have e7 : rbrace ≠ ',' := by decide
          have hnd : noDigitHead (rbrace :: rest) = true := rfl
          rw [parseMembers_succ, hs]
          simp only [reduceIte]
          rw [parseStringBody_round k.toList (':' :: (dumpChars v ++ rbrace :: rest))]
          simp only [reduceIte]
          rw [ihJ v (rbrace :: rest) hv hnd]
          simp [e7]
        | cons m2 tail2 =>
          have hv1 : jsonCost v ≤ n := by
            simp only [membersCost] at hc
            have hp1 := jsonCost_pos m2.2
            have hp2 := membersCost_pos tail2
            omega
          have hv2 : membersCost (m2 :: tail2) ≤ n := by
            simp only [membersCost] at hc ⊢
            have hp := jsonCost_pos v
            omega
          have hs : dumpMembersChars ((k, v) :: m2 :: tail2) ++ rbrace :: rest
              = '"' :: ((List.map escChar k.toList).flatten
                  ++ '"' :: (':' :: (dumpChars v
                    ++ ',' :: (dumpMembersChars (m2 :: tail2) ++ rbrace :: rest)))) := by
            simp [dumpMembersChars, escString, List.cons_append, List.append_assoc]
          have hnd : noDigitHead (',' :: (dumpMembersChars (m2 :: tail2) ++ rbrace :: rest))
              = true := rfl
          rw [parseMembers_succ, hs]
          simp only [reduceIte]
          rw [parseStringBody_round k.toList
            (':' :: (dumpChars v ++ ',' :: (dumpMembersChars (m2 :: tail2) ++ rbrace :: rest)))]
          simp only [reduceIte]
          rw [ihJ v _ hv1 hnd]
          simp [ihM (m2 :: tail2) rest (by simp) hv2]

/-- Parsing the serialization of any JSON value yields the value back. -/
theorem json_round_trip (v : Json) : json_load (json_dumps v) = some v := by
  have hc : jsonCost v ≤ 2 * (String.mk (dumpChars v)).length + 4 := by
    have h1 := jsonCost_le v
    have h2 : (String.mk (dumpChars v)).length = (dumpChars v).length := rfl
    omega
  have h := (parse_dump (2 * (String.mk (dumpChars v)).length + 4)).1 v [] hc rfl
  rw [List.append_nil] at h
  unfold json_load json_dumps
  rw [show (String.mk (dumpChars v)).toList = dumpChars v from rfl, h]

/-- C9.  Writing any JSON object to a file and reading that file back
with read_config yields exactly the original object, members and order
preserved under the JSON data model. -/
theorem config_round_trip (members : List (String × Json)) :
    read_config (some (json_dumps (Json.obj members))) = .ok (Json.obj members) := by
  simp [read_config, json_round_trip (Json.obj members)]

/-- C10.  Whatever value the json parser produces for the file contents
is returned by read_config unchanged: there is no check that the top
level is a mapping, so arrays, strings, numbers, booleans and null are
returned rather than rejected. -/
theorem read_config_no_mapping_check (s : String) (v : Json)
    (h : json_load s = some v) : read_config (some s) = .ok v := by
  simp [read_config, h]

/-- C10, witness: a top-level JSON array is returned as parsed. -/
theorem read_config_no_mapping_check_witness :
    read_config (some "[1]") = .ok (Json.arr [Json.num 1]) :=
  read_config_no_mapping_check "[1]" (Json.arr [Json.num 1]) rfl
